import Mathlib

/-!
Shallow embedding of `lab_5_scraper/scraper.py`: configuration validation,
seed crawling with a deduplicated bounded URL frontier, article parsing
(title / author / body text extraction), the pipeline driver, and the
output-area preparation routine.

Dynamically typed Python values that flow through the configuration are
modelled by the inductive `PyValue`; machine-level details that the claims
do not touch (HTTP transport, the politeness sleep, byte-level encodings)
are abstracted into pure parameters (for instance, the crawler receives the
per-seed extracted link list as a function argument, standing for
"fetch the seed page, parse it, run `_extract_url`").
-/

namespace Scraper

/-- A dynamically typed value, as found in the deserialized configuration
dictionary.  Python's `bool` is a subclass of `int`, which the
`isinstance(_, int)` model below reflects. -/
inductive PyValue where
  | pyStr : String → PyValue
  | pyInt : Int → PyValue
  | pyBool : Bool → PyValue
  | pyList : List PyValue → PyValue
  | pyDict : List (String × PyValue) → PyValue
  | pyNone : PyValue

/-- `isinstance(v, list)`. -/
def pyIsList : PyValue → Bool
  | .pyList _ => true
  | _ => false

/-- The element list of a Python list value (meaningful only under
`pyIsList`). -/
def pyListItems : PyValue → List PyValue
  | .pyList l => l
  | _ => []

/-- `isinstance(v, str)`. -/
def pyIsStr : PyValue → Bool
  | .pyStr _ => true
  | _ => false

/-- `isinstance(v, dict)`. -/
def pyIsDict : PyValue → Bool
  | .pyDict _ => true
  | _ => false

/-- `isinstance(v, bool)`. -/
def pyIsBool : PyValue → Bool
  | .pyBool _ => true
  | _ => false

/-- `isinstance(v, int)`: true for `int` and (as in Python) for `bool`. -/
def pyIsInt : PyValue → Bool
  | .pyInt _ => true
  | .pyBool _ => true
  | _ => false

/-- The integer value of an `int`-like Python value (`True == 1`,
`False == 0`); meaningful only under `pyIsInt`. -/
def pyToInt : PyValue → Int
  | .pyInt n => n
  | .pyBool b => if b then 1 else 0
  | _ => 0

/-- The required substring of every seed URL
(`'http://vzm-vesti.ru/' not in url` in `_validate_config_content`). -/
def siteMarker : String := "http://vzm-vesti.ru/"

/-- Whether `sub` occurs as a contiguous segment of `l`
(an executable infix test on character lists). -/
def charsContain (sub : List Char) : List Char → Bool
  | [] => sub.isEmpty
  | c :: t => sub.isPrefixOf (c :: t) || charsContain sub t

/-- Python's `sub in s` substring test, on the character lists. -/
def strContains (s sub : String) : Bool :=
  charsContain sub.data s.data

/-- The per-URL test of the seed-URL loop in `_validate_config_content`:
the element must be a string containing the site marker. -/
def urlOk (v : PyValue) : Bool :=
  match v with
  | .pyStr s => strContains s siteMarker
  | _ => false

/-- The error taxonomy raised by `Config._validate_config_content`
(the exception classes at the top of `scraper.py`). -/
inductive ConfigError where
  | IncorrectSeedURLError
  | IncorrectNumberOfArticlesError
  | NumberOfArticlesOutOfRangeError
  | IncorrectHeadersError
  | IncorrectEncodingError
  | IncorrectTimeoutError
  | IncorrectVerifyError
  deriving DecidableEq

/-- The raw configuration values, as stored on `Config` by `__init__`
before validation (`ConfigDTO` fields). -/
structure ConfigDTO where
  seed_urls : PyValue
  total_articles : PyValue
  headers : PyValue
  encoding : PyValue
  timeout : PyValue
  should_verify_certificate : PyValue
  headless_mode : PyValue

/-- `Config._validate_config_content`: the sequence of checks, in source
order, each raising its specific error. -/
def validateConfigContent (c : ConfigDTO) : Except ConfigError Unit :=
  if ¬ pyIsList c.seed_urls then .error .IncorrectSeedURLError
  else if ¬ (pyListItems c.seed_urls).all urlOk then .error .IncorrectSeedURLError
  else if ¬ pyIsInt c.total_articles ∨ pyToInt c.total_articles ≤ 0 then
    .error .IncorrectNumberOfArticlesError
  else if pyToInt c.total_articles < 0 ∨ pyToInt c.total_articles > 150 then
    .error .NumberOfArticlesOutOfRangeError
  else if ¬ pyIsDict c.headers then .error .IncorrectHeadersError
  else if ¬ pyIsStr c.encoding then .error .IncorrectEncodingError
  else if ¬ pyIsInt c.timeout ∨ pyToInt c.timeout ≤ 0 ∨ pyToInt c.timeout > 60 then
    .error .IncorrectTimeoutError
  else if ¬ pyIsBool c.should_verify_certificate ∨ ¬ pyIsBool c.headless_mode then
    .error .IncorrectVerifyError
  else .ok ()

/-- A validated configuration, holding the raw values the getters return. -/
structure Config where
  seed_urls : PyValue
  total_articles : PyValue
  headers : PyValue
  encoding : PyValue
  timeout : PyValue
  should_verify_certificate : PyValue
  headless_mode : PyValue

/-- `Config.__init__`: store the extracted values, then validate; a raised
validation error propagates, so no object is produced on failure. -/
def Config.init (dto : ConfigDTO) : Except ConfigError Config :=
  match validateConfigContent dto with
  | .error e => .error e
  | .ok _ =>
      .ok ⟨dto.seed_urls, dto.total_articles, dto.headers, dto.encoding,
           dto.timeout, dto.should_verify_certificate, dto.headless_mode⟩

/-! ## Seed crawler

`Crawler.find_articles` iterates over seed URLs, extracts this seed page's
link list (`_extract_url` over the fetched HTML), appends each link not
already present in `self.urls`, and after processing every link compares
`len(self.urls)` against `get_num_articles()`, returning at once when the
target is reached.  The frontier element type is kept generic (`α` with
decidable equality): in the source it is whatever `link.get('href')`
returned, a string or `None`. -/

/-- The inner `for url in url_list` loop body of `Crawler.find_articles`:
threads the frontier through the links of one seed page, and reports
(second component) whether the `len(self.urls) >= num` early `return`
fired. -/
def processLinks {α : Type} [DecidableEq α] (num : Nat) :
    List α → List α → List α × Bool
  | [], urls => (urls, false)
  | l :: rest, urls =>
      let urls' := if l ∈ urls then urls else urls ++ [l]
      if num ≤ urls'.length then (urls', true)
      else processLinks num rest urls'

/-- `Crawler.find_articles`, with fetch-and-extract abstracted into
`extract : String → List α` (the link list `_extract_url` produces for a
given seed URL); `num` is `config.get_num_articles()` and the final
argument is the current `self.urls`. -/
def findArticles {α : Type} [DecidableEq α] (num : Nat)
    (extract : String → List α) : List String → List α → List α
  | [], urls => urls
  | seed :: seeds, urls =>
      let url_list := extract seed
      if url_list.length ≠ 0 then
        let r := processLinks num url_list urls
        if r.2 then r.1 else findArticles num extract seeds r.1
      else findArticles num extract seeds urls

/-! ## Seed pages and `_extract_url` -/

/-- An anchor element inside the listing container; `link.get('href')` is
`None` when the attribute is missing. -/
structure Anchor where
  href : Option String

/-- A fetched seed (listing) page, reduced to what `_extract_url` reads:
the single `h2` element with the post-title class marker, if present, as
the list of its anchor elements in document order. -/
structure SeedPage where
  listing : Option (List Anchor)

/-- `Crawler._extract_url`: collect every anchor's `href` from the listing
container; when `find` returned `None` the attribute access
`h2_articles.find_all('a')` raises, modelled as `none`. -/
def extractUrl (page : SeedPage) : Option (List (Option String)) :=
  match page.listing with
  | none => none
  | some anchors => some (anchors.map Anchor.href)

/-- `Crawler.find_articles` with the fetched seed pages explicit
(`fetch` stands for `make_request` + `BeautifulSoup`): a raised
`_extract_url` error propagates and aborts the crawl (`none`). -/
def findArticlesRun (num : Nat) (fetch : String → SeedPage) :
    List String → List (Option String) → Option (List (Option String))
  | [], urls => some urls
  | seed :: seeds, urls =>
      match extractUrl (fetch seed) with
      | none => none
      | some url_list =>
          if url_list.length ≠ 0 then
            let r := processLinks num url_list urls
            if r.2 then some r.1 else findArticlesRun num fetch seeds r.1
          else findArticlesRun num fetch seeds urls

/-! ## Article documents and `HTMLParser` -/

/-- One item of the article record's `author` field.  The source
initializes `self.article.author` to the empty list and then applies
`+=`, which in Python extends a list element-wise: extending with a string
adds its characters one by one, and extending with a BeautifulSoup tag
adds the tag's child nodes. -/
inductive AuthorItem where
  | charItem : Char → AuthorItem
  | nodeItem : String → AuthorItem
  deriving DecidableEq

/-- A paragraph (`<p>`) element: its class attribute values, its full text
(`p.text`), and its direct child nodes (what Python iteration over the tag
yields), reduced to their text. -/
structure Para where
  classes : List String
  text : String
  children : List String

/-- A fetched article document, reduced to what `HTMLParser` reads: the
`<title>` element's text, if the element is present, and the `<p>`
elements in document order. -/
structure Doc where
  title : Option String
  paragraphs : List Para

/-- The article record (fields of `core_utils.article.Article` the parser
touches).  The author field is a Python list, see `AuthorItem`. -/
structure Article where
  url : String
  article_id : Nat
  title : String
  author : List AuthorItem
  text : String

/-- Modelled from the spec: the `Article` constructor lives in
`core_utils` (not under `src/`); per the data model an article record is
created empty when the parser begins processing a URL, so its title,
author and accumulated body text start out empty. -/
def Article.init (url : String) (article_id : Nat) : Article :=
  ⟨url, article_id, "", [], ""⟩

/-- `HTMLParser._fill_article_with_text`: for every `<p>` in document
order, `self.article.text += p.text`. -/
def fillArticleWithText (soup : Doc) (a : Article) : Article :=
  soup.paragraphs.foldl (fun acc p => { acc with text := acc.text ++ p.text }) a

/-- Python's `s.split(sep)` for the single-character separator the source
uses (`"—"`): cut at every occurrence of the character. -/
def splitOnChar (sep : Char) : List Char → List (List Char)
  | [] => [[]]
  | c :: t =>
      if c = sep then [] :: splitOnChar sep t
      else
        match splitOnChar sep t with
        | [] => [[c]]
        | h :: r => (c :: h) :: r

/-- Python's `s.strip()`: drop leading and trailing whitespace. -/
def pyStrip (l : List Char) : List Char :=
  ((l.dropWhile Char.isWhitespace).reverse.dropWhile Char.isWhitespace).reverse

/-- `soup.find("p", class_="bio-name")`: the first paragraph carrying the
`bio-name` class, if any. -/
def findBioName (soup : Doc) : Option Para :=
  soup.paragraphs.find? (fun p => p.classes.contains "bio-name")

/-- `HTMLParser._fill_article_with_meta_information`: set the title to the
segment of the `<title>` text before the first `—`, stripped; reset the
author field to `[]` and extend it (`+=`) with either the string
`"NOT FOUND"` (adding its characters) or the found tag (adding its child
nodes).  A missing `<title>` element makes `title.text` raise, modelled as
`none`. -/
def fillArticleWithMetaInformation (soup : Doc) (a : Article) : Option Article :=
  match soup.title with
  | none => none
  | some t =>
      let title1 := (splitOnChar '—' t.data).headD []
      let a := { a with title := ⟨pyStrip title1⟩ }
      let authorInit : List AuthorItem := []
      match findBioName soup with
      | none =>
          some { a with author := authorInit ++ "NOT FOUND".data.map AuthorItem.charItem }
      | some p =>
          some { a with author := authorInit ++ p.children.map AuthorItem.nodeItem }

/-- `HTMLParser.parse`, with the fetched document explicit: fill the text,
then the meta information, on the instance's article record. -/
def parse (soup : Doc) (a : Article) : Option Article :=
  fillArticleWithMetaInformation soup (fillArticleWithText soup a)

/-! ## Pipeline driver -/

/-- One call on the external sink (`article_io.to_raw` /
`article_io.to_meta`), recorded with the article's id and url. -/
inductive SinkEvent where
  | toRaw : Nat → String → SinkEvent
  | toMeta : Nat → String → SinkEvent
  deriving DecidableEq

/-- The `for url in crawler.urls` loop of `main`: build an `HTMLParser`
with the current `article_id`, parse, increment `article_id`, then store
raw text and metadata in that order.  The sink calls are recorded as a
trace. -/
def driverLoop : List String → Nat → List SinkEvent
  | [], _ => []
  | url :: rest, article_id =>
      SinkEvent.toRaw article_id url :: SinkEvent.toMeta article_id url ::
        driverLoop rest (article_id + 1)

/-- The sink trace of `main` over a crawled frontier: ids start at 1. -/
def driverRun (urls : List String) : List SinkEvent :=
  driverLoop urls 1

/-! ## `prepare_environment`

The filesystem is modelled as an association list from paths (component
lists) to entries; `shutil.rmtree` removes the whole subtree and
`pathlib.Path(...).mkdir(parents=True)` creates the missing ancestors
shallow-to-deep and then the directory itself, raising (`none`) when the
target already exists. -/

/-- A filesystem path, as its list of components. -/
abbrev FSPath := List String

/-- A filesystem entry: a regular file or a directory. -/
inductive FSEntry where
  | fileE
  | dirE
  deriving DecidableEq

/-- Whether an entry list carries the path `q` as a key. -/
def hasKey (es : List (FSPath × FSEntry)) (q : FSPath) : Bool :=
  (es.find? (fun e => e.1 == q)).isSome

/-- A filesystem state: the existing paths with their entries. -/
structure FS where
  entries : List (FSPath × FSEntry)

/-- The entry at a path, if the path exists. -/
def FS.lookup (fs : FS) (p : FSPath) : Option FSEntry :=
  (fs.entries.find? (fun e => e.1 == p)).map (fun e => e.2)

/-- `pathlib.Path(p).exists()`. -/
def FS.pathExists (fs : FS) (p : FSPath) : Bool :=
  hasKey fs.entries p

/-- `shutil.rmtree(p)`: remove `p` and everything below it. -/
def FS.rmtree (fs : FS) (p : FSPath) : FS :=
  ⟨fs.entries.filter (fun e => ! p.isPrefixOf e.1)⟩

/-- The nonempty initial segments of a path, shallow to deep, ending with
the path itself. -/
def pathInits (p : FSPath) : List FSPath :=
  (List.range p.length).map (fun i => p.take (i + 1))

/-- Create the directory `q` at the end of the entry list unless the path
already exists (one `mkdir` step of `mkdir(parents=True)`). -/
def addDir (es : List (FSPath × FSEntry)) (q : FSPath) :
    List (FSPath × FSEntry) :=
  if hasKey es q then es else es ++ [(q, FSEntry.dirE)]

/-- `pathlib.Path(p).mkdir(parents=True)`: create every missing ancestor
directory, then `p` itself; raises (`none`) when `p` already exists. -/
def FS.mkdirParents (fs : FS) (p : FSPath) : Option FS :=
  if fs.pathExists p then none
  else some ⟨(pathInits p).foldl addDir fs.entries⟩

/-- A well-formed filesystem state: every nonempty proper ancestor of an
existing path exists as well (true of an actual on-disk tree). -/
def FS.WF (fs : FS) : Prop :=
  ∀ e ∈ fs.entries, ∀ i < e.1.length, 0 < i →
    fs.pathExists (e.1.take i) = true

/-- `prepare_environment`: remove the target if it exists, then recreate
it with parents. -/
def prepareEnvironment (base_path : FSPath) (fs : FS) : Option FS :=
  let fs1 := if fs.pathExists base_path then fs.rmtree base_path else fs
  fs1.mkdirParents base_path

/-! ## Helper lemmas -/

theorem stringJoin_cons (s : String) (l : List String) :
    String.join (s :: l) = s ++ String.join l := by
  apply String.ext
  simp [String.join_eq, String.data_append]

theorem textFoldl_text (ps : List Para) (a : Article) :
    (ps.foldl (fun acc p => { acc with text := acc.text ++ p.text }) a).text
      = a.text ++ String.join (ps.map Para.text) := by
  induction ps generalizing a with
  | nil => simp [String.join]
  | cons p ps ih =>
      simp only [List.foldl_cons, List.map_cons, stringJoin_cons, ih]
      rw [String.append_assoc]

theorem fillArticleWithText_text (soup : Doc) (a : Article) :
    (fillArticleWithText soup a).text
      = a.text ++ String.join (soup.paragraphs.map Para.text) :=
  textFoldl_text soup.paragraphs a

theorem fillArticleWithMetaInformation_none (soup : Doc) (a : Article)
    (hT : soup.title = none) :
    fillArticleWithMetaInformation soup a = none := by
  unfold fillArticleWithMetaInformation
  rw [hT]

theorem fillArticleWithMetaInformation_eq (soup : Doc) (a : Article)
    (t : String) (hT : soup.title = some t) :
    fillArticleWithMetaInformation soup a = some { a with
      title := ⟨pyStrip ((splitOnChar '—' t.data).headD [])⟩,
      author := match findBioName soup with
        | none => "NOT FOUND".data.map AuthorItem.charItem
        | some p => p.children.map AuthorItem.nodeItem } := by
  unfold fillArticleWithMetaInformation
  rw [hT]
  cases findBioName soup <;> rfl

theorem fillArticleWithMetaInformation_text {soup : Doc} {a c : Article}
    (h : fillArticleWithMetaInformation soup a = some c) : c.text = a.text := by
  cases hT : soup.title with
  | none => rw [fillArticleWithMetaInformation_none soup a hT] at h; cases h
  | some t =>
      rw [fillArticleWithMetaInformation_eq soup a t hT] at h
      cases h
      rfl

theorem fillArticleWithMetaInformation_total {soup : Doc} {a c : Article}
    (h : fillArticleWithMetaInformation soup a = some c) (b : Article) :
    ∃ d, fillArticleWithMetaInformation soup b = some d := by
  cases hT : soup.title with
  | none => rw [fillArticleWithMetaInformation_none soup a hT] at h; cases h
  | some t => exact ⟨_, fillArticleWithMetaInformation_eq soup b t hT⟩

theorem processLinks_bound {α : Type} [DecidableEq α] (num : Nat) :
    ∀ (links urls : List α), urls.length < num →
      (processLinks num links urls).1.length ≤ num ∧
        ((processLinks num links urls).2 = false →
          (processLinks num links urls).1.length < num) := by
  intro links
  induction links with
  | nil => exact fun urls h => ⟨Nat.le_of_lt h, fun _ => h⟩
  | cons l rest ih =>
      intro urls h
      simp only [processLinks]
      by_cases hm : l ∈ urls <;> simp only [hm, if_true, if_false, ite_true, ite_false]
      · by_cases hc : num ≤ urls.length
        · omega
        · simp only [hc, if_false, ite_false]
          exact ih urls h
      · by_cases hc : num ≤ (urls ++ [l]).length
        · simp only [hc, if_true, ite_true]
          constructor
          · simpa using h
          · intro hfalse; cases hfalse
        · simp only [hc, if_false, ite_false]
          exact ih (urls ++ [l]) (by simpa using hc)

theorem findArticles_length_le {α : Type} [DecidableEq α] (num : Nat)
    (extract : String → List α) :
    ∀ (seeds : List String) (urls : List α), urls.length < num →
      (findArticles num extract seeds urls).length ≤ num := by
  intro seeds
  induction seeds with
  | nil => exact fun urls h => Nat.le_of_lt h
  | cons s rest ih =>
      intro urls h
      simp only [findArticles]
      by_cases hz : (extract s).length ≠ 0
      · simp only [if_pos hz]
        obtain ⟨h1, h2⟩ := processLinks_bound num (extract s) urls h
        by_cases hstop : (processLinks num (extract s) urls).2 = true
        · simp only [if_pos hstop]
          exact h1
        · simp only [if_neg hstop]
          exact ih _ (h2 (by simpa using hstop))
      · simp only [if_neg hz]
        exact ih urls h

theorem Config.init_error {dto : ConfigDTO} {e : ConfigError}
    (h : validateConfigContent dto = .error e) : Config.init dto = .error e := by
  unfold Config.init
  rw [h]

theorem hasKey_append (es : List (FSPath × FSEntry)) (x : FSPath × FSEntry)
    (q : FSPath) : hasKey (es ++ [x]) q = (hasKey es q || (x.1 == q)) := by
  induction es with
  | nil =>
      by_cases h : (x.1 == q) = true <;> simp [hasKey, List.find?, h]
  | cons e es ih =>
      by_cases h : (e.1 == q) = true
      · simp [hasKey, List.find?, h]
      · simp only [hasKey, List.cons_append, List.find?, h]
        simp [hasKey] at ih ⊢
        simp [ih]

theorem addDir_hasKey_self (es : List (FSPath × FSEntry)) (q : FSPath) :
    hasKey (addDir es q) q = true := by
  unfold addDir
  by_cases h : hasKey es q
  · simp [h]
  · simp [h, hasKey_append]

theorem addDir_hasKey_mono (es : List (FSPath × FSEntry)) (q r : FSPath)
    (h : hasKey es r = true) : hasKey (addDir es q) r = true := by
  unfold addDir
  by_cases hq : hasKey es q
  · simpa [hq] using h
  · simp [hq, hasKey_append, h]

theorem foldl_addDir_preserves (qs : List FSPath) :
    ∀ (es : List (FSPath × FSEntry)) (r : FSPath), hasKey es r = true →
      hasKey (qs.foldl addDir es) r = true := by
  induction qs with
  | nil => exact fun es r h => h
  | cons q qs ih => exact fun es r h => ih _ r (addDir_hasKey_mono es q r h)

theorem foldl_addDir_hasKey (qs : List FSPath) :
    ∀ (es : List (FSPath × FSEntry)) (q : FSPath), q ∈ qs →
      hasKey (qs.foldl addDir es) q = true := by
  induction qs with
  | nil => intro es q hq; cases hq
  | cons r qs ih =>
      intro es q hq
      rcases List.mem_cons.mp hq with h | h
      · subst h
        exact foldl_addDir_preserves qs _ q (addDir_hasKey_self es q)
      · exact ih _ q h

theorem foldl_addDir_skip (qs : List FSPath) :
    ∀ es : List (FSPath × FSEntry), (∀ q ∈ qs, hasKey es q = true) →
      qs.foldl addDir es = es := by
  induction qs with
  | nil => intro es _; rfl
  | cons r qs ih =>
      intro es h
      have h1 : addDir es r = es := by
        unfold addDir
        rw [if_pos (h r (List.mem_cons_self r qs))]
      simp only [List.foldl_cons, h1]
      exact ih es (fun q hq => h q (List.mem_cons_of_mem r hq))

theorem addDir_of_not (es : List (FSPath × FSEntry)) (q : FSPath)
    (h : hasKey es q = false) : addDir es q = es ++ [(q, FSEntry.dirE)] := by
  unfold addDir
  rw [if_neg]
  simp [h]

theorem hasKey_eq_false_of_clean {p : FSPath} {es : List (FSPath × FSEntry)}
    (h : ∀ e ∈ es, p.isPrefixOf e.1 = false) : hasKey es p = false := by
  unfold hasKey
  cases hf : es.find? (fun e => e.1 == p) with
  | none => rfl
  | some e =>
      exfalso
      have hm := List.mem_of_find?_eq_some hf
      have hq : e.1 = p := by simpa using List.find?_some hf
      have h1 := h e hm
      rw [hq] at h1
      rw [List.isPrefixOf_iff_prefix.mpr (List.prefix_refl p)] at h1
      cases h1

theorem foldl_addDir_clean {p : FSPath} (qs : List FSPath) :
    ∀ es : List (FSPath × FSEntry),
      (∀ e ∈ es, p.isPrefixOf e.1 = false) →
      (∀ q ∈ qs, p.isPrefixOf q = false) →
      ∀ e ∈ qs.foldl addDir es, p.isPrefixOf e.1 = false := by
  induction qs with
  | nil => intro es hes _; exact hes
  | cons r qs ih =>
      intro es hes hqs
      apply ih (addDir es r)
      · intro e he
        unfold addDir at he
        by_cases hk : hasKey es r
        · rw [if_pos hk] at he
          exact hes e he
        · rw [if_neg hk] at he
          rcases List.mem_append.mp he with h | h
          · exact hes e h
          · have hx : e = (r, FSEntry.dirE) := List.mem_singleton.mp h
            rw [hx]
            exact hqs r (List.mem_cons_self r qs)
      · intro q hq
        exact hqs q (List.mem_cons_of_mem r hq)

theorem pathInits_eq_append (p : FSPath) (hp : p ≠ []) :
    pathInits p
      = (List.range (p.length - 1)).map (fun i => p.take (i + 1)) ++ [p] := by
  unfold pathInits
  have hlen : p.length ≠ 0 := fun h => hp (List.length_eq_zero.mp h)
  obtain ⟨n, hn⟩ : ∃ n, p.length = n + 1 := ⟨p.length - 1, by omega⟩
  rw [hn]
  simp only [Nat.add_sub_cancel]
  rw [List.range_succ, List.map_append]
  simp only [List.map_cons, List.map_nil]
  rw [← hn, List.take_length]

theorem strictInits_clean (p : FSPath) :
    ∀ q ∈ (List.range (p.length - 1)).map (fun i => p.take (i + 1)),
      p.isPrefixOf q = false := by
  intro q hq
  rcases List.mem_map.mp hq with ⟨i, hi, rfl⟩
  have hi' : i < p.length - 1 := List.mem_range.mp hi
  have hlen : (p.take (i + 1)).length = i + 1 := by
    rw [List.length_take]
    omega
  by_contra h
  have hpre : p <+: p.take (i + 1) :=
    List.isPrefixOf_iff_prefix.mp (by simpa using h)
  have hle := hpre.length_le
  rw [hlen] at hle
  omega

theorem mkdirParents_clean (es : List (FSPath × FSEntry)) (p : FSPath)
    (hp : p ≠ []) (hes : ∀ e ∈ es, p.isPrefixOf e.1 = false) :
    FS.mkdirParents ⟨es⟩ p
      = some ⟨((List.range (p.length - 1)).map (fun i => p.take (i + 1))).foldl
          addDir es ++ [(p, FSEntry.dirE)]⟩ := by
  have hk0 : hasKey es p = false := hasKey_eq_false_of_clean hes
  have hLclean := foldl_addDir_clean
    ((List.range (p.length - 1)).map (fun i => p.take (i + 1))) es hes
    (strictInits_clean p)
  have hkL := hasKey_eq_false_of_clean hLclean
  unfold FS.mkdirParents FS.pathExists
  rw [if_neg (by simp [hk0])]
  rw [pathInits_eq_append p hp, List.foldl_append]
  simp only [List.foldl_cons, List.foldl_nil]
  rw [addDir_of_not _ _ hkL]

theorem find?_append_self {es : List (FSPath × FSEntry)} {p : FSPath}
    (v : FSEntry) (h : hasKey es p = false) :
    (es ++ [(p, v)]).find? (fun e => e.1 == p) = some (p, v) := by
  induction es with
  | nil => simp [List.find?]
  | cons e es ih =>
      unfold hasKey at h
      by_cases he : (e.1 == p) = true
      · simp [List.find?, he] at h
      · simp only [List.find?, he] at h
        simp only [List.cons_append, List.find?, he]
        exact ih h

theorem lookup_append_self (es : List (FSPath × FSEntry)) (p : FSPath)
    (v : FSEntry) (h : hasKey es p = false) :
    FS.lookup ⟨es ++ [(p, v)]⟩ p = some v := by
  unfold FS.lookup
  rw [find?_append_self v h]
  rfl

theorem prepareEnvironment_fixpoint (L : List (FSPath × FSEntry)) (p : FSPath)
    (hp : p ≠ []) (hL : ∀ e ∈ L, p.isPrefixOf e.1 = false)
    (hpresent : ∀ q ∈ (List.range (p.length - 1)).map (fun i => p.take (i + 1)),
        hasKey L q = true) :
    prepareEnvironment p ⟨L ++ [(p, FSEntry.dirE)]⟩
      = some ⟨L ++ [(p, FSEntry.dirE)]⟩ := by
  have hkL : hasKey L p = false := hasKey_eq_false_of_clean hL
  have hex : FS.pathExists ⟨L ++ [(p, FSEntry.dirE)]⟩ p = true := by
    unfold FS.pathExists
    rw [hasKey_append]
    simp [hkL]
  have hrm : FS.rmtree ⟨L ++ [(p, FSEntry.dirE)]⟩ p = ⟨L⟩ := by
    unfold FS.rmtree
    congr 1
    rw [List.filter_append]
    have h1 : L.filter (fun e => ! p.isPrefixOf e.1) = L :=
      List.filter_eq_self.mpr (fun e he => by rw [hL e he]; rfl)
    have h2 : [(p, FSEntry.dirE)].filter (fun e => ! p.isPrefixOf e.1) = [] := by
      have hr : p.isPrefixOf p = true :=
        List.isPrefixOf_iff_prefix.mpr (List.prefix_refl p)
      simp [List.filter, hr]
    rw [h1, h2, List.append_nil]
  simp only [prepareEnvironment]
  rw [if_pos (by simp [hex]), hrm]
  unfold FS.mkdirParents FS.pathExists
  rw [if_neg (by simp [hkL])]
  rw [pathInits_eq_append p hp, List.foldl_append]
  rw [foldl_addDir_skip _ L hpresent]
  simp only [List.foldl_cons, List.foldl_nil]
  rw [addDir_of_not L p hkL]

/-! ## Claim theorems -/

/-- C2: a raw configuration whose only fault is the named field fails
construction with that field's specific error kind — a seed URL without
the site marker gives `IncorrectSeedURLError`, target count 0 gives
`IncorrectNumberOfArticlesError`, target count 200 gives
`NumberOfArticlesOutOfRangeError`, a timeout outside `(0, 60]` (such as 0
or 61) gives `IncorrectTimeoutError`, a non-boolean verification flag
gives `IncorrectVerifyError` — and a configuration value is only produced
when validation succeeded, so no partial configuration is exposed on
failure. -/
theorem config_single_fault_specific_errors :
    (∀ (dto : ConfigDTO) (urls : List PyValue) (s : String),
        dto.seed_urls = .pyList urls → PyValue.pyStr s ∈ urls →
        strContains s siteMarker = false →
        Config.init dto = .error .IncorrectSeedURLError)
    ∧ (∀ dto : ConfigDTO,
        pyIsList dto.seed_urls = true →
        (pyListItems dto.seed_urls).all urlOk = true →
        dto.total_articles = .pyInt 0 →
        Config.init dto = .error .IncorrectNumberOfArticlesError)
    ∧ (∀ dto : ConfigDTO,
        pyIsList dto.seed_urls = true →
        (pyListItems dto.seed_urls).all urlOk = true →
        dto.total_articles = .pyInt 200 →
        Config.init dto = .error .NumberOfArticlesOutOfRangeError)
    ∧ (∀ dto : ConfigDTO,
        pyIsList dto.seed_urls = true →
        (pyListItems dto.seed_urls).all urlOk = true →
        pyIsInt dto.total_articles = true →
        0 < pyToInt dto.total_articles →
        pyToInt dto.total_articles ≤ 150 →
        pyIsDict dto.headers = true →
        pyIsStr dto.encoding = true →
        (dto.timeout = .pyInt 0 ∨ dto.timeout = .pyInt 61) →
        Config.init dto = .error .IncorrectTimeoutError)
    ∧ (∀ dto : ConfigDTO,
        pyIsList dto.seed_urls = true →
        (pyListItems dto.seed_urls).all urlOk = true →
        pyIsInt dto.total_articles = true →
        0 < pyToInt dto.total_articles →
        pyToInt dto.total_articles ≤ 150 →
        pyIsDict dto.headers = true →
        pyIsStr dto.encoding = true →
        pyIsInt dto.timeout = true →
        0 < pyToInt dto.timeout →
        pyToInt dto.timeout ≤ 60 →
        pyIsBool dto.should_verify_certificate = false →
        Config.init dto = .error .IncorrectVerifyError)
    ∧ (∀ (dto : ConfigDTO) (e : ConfigError) (cfg : Config),
        validateConfigContent dto = .error e → Config.init dto ≠ .ok cfg) := by
  refine ⟨?_, ?_, ?_, ?_, ?_, ?_⟩
  · intro dto urls s hseed hmem hsub
    apply Config.init_error
    have n1 : ¬ ¬ (pyIsList dto.seed_urls = true) := by simp [hseed, pyIsList]
    have p2 : ¬ ((pyListItems dto.seed_urls).all urlOk = true) := by
      rw [hseed]
      intro hall
      rw [List.all_eq_true] at hall
      have := hall _ hmem
      rw [urlOk] at this
      rw [hsub] at this
      cases this
    unfold validateConfigContent
    rw [if_neg n1, if_pos p2]
  · intro dto hl ha ht
    apply Config.init_error
    have n1 : ¬ ¬ (pyIsList dto.seed_urls = true) := by simp [hl]
    have n2 : ¬ ¬ ((pyListItems dto.seed_urls).all urlOk = true) := by simp [ha]
    have p3 : ¬ (pyIsInt dto.total_articles = true) ∨
        pyToInt dto.total_articles ≤ 0 := by
      right
      rw [ht]
      simp [pyToInt]
    unfold validateConfigContent
    rw [if_neg n1, if_neg n2, if_pos p3]
  · intro dto hl ha ht
    apply Config.init_error
    have n1 : ¬ ¬ (pyIsList dto.seed_urls = true) := by simp [hl]
    have n2 : ¬ ¬ ((pyListItems dto.seed_urls).all urlOk = true) := by simp [ha]
    have hval : pyToInt dto.total_articles = 200 := by rw [ht]; rfl
    have hint : pyIsInt dto.total_articles = true := by rw [ht]; rfl
    have n3 : ¬ (¬ (pyIsInt dto.total_articles = true) ∨
        pyToInt dto.total_articles ≤ 0) := by
      rintro (h | h)
      · exact h hint
      · omega
    have p4 : pyToInt dto.total_articles < 0 ∨
        pyToInt dto.total_articles > 150 := by
      right
      omega
    unfold validateConfigContent
    rw [if_neg n1, if_neg n2, if_neg n3, if_pos p4]
  · intro dto hl ha hi hpos hle hd he ht
    apply Config.init_error
    have n1 : ¬ ¬ (pyIsList dto.seed_urls = true) := by simp [hl]
    have n2 : ¬ ¬ ((pyListItems dto.seed_urls).all urlOk = true) := by simp [ha]
    have n3 : ¬ (¬ (pyIsInt dto.total_articles = true) ∨
        pyToInt dto.total_articles ≤ 0) := by
      rintro (h | h)
      · exact h hi
      · omega
    have n4 : ¬ (pyToInt dto.total_articles < 0 ∨
        pyToInt dto.total_articles > 150) := by
      rintro (h | h) <;> omega
    have n5 : ¬ ¬ (pyIsDict dto.headers = true) := by simp [hd]
    have n6 : ¬ ¬ (pyIsStr dto.encoding = true) := by simp [he]
    have p7 : ¬ (pyIsInt dto.timeout = true) ∨ pyToInt dto.timeout ≤ 0 ∨
        pyToInt dto.timeout > 60 := by
      rcases ht with h | h
      · right; left; rw [h]; simp [pyToInt]
      · right; right; rw [h]; simp [pyToInt]
    unfold validateConfigContent
    rw [if_neg n1, if_neg n2, if_neg n3, if_neg n4, if_neg n5, if_neg n6,
      if_pos p7]
  · intro dto hl ha hi hpos hle hd he hti htpos htle hv
    apply Config.init_error
    have n1 : ¬ ¬ (pyIsList dto.seed_urls = true) := by simp [hl]
    have n2 : ¬ ¬ ((pyListItems dto.seed_urls).all urlOk = true) := by simp [ha]
    have n3 : ¬ (¬ (pyIsInt dto.total_articles = true) ∨
        pyToInt dto.total_articles ≤ 0) := by
      rintro (h | h)
      · exact h hi
      · omega
    have n4 : ¬ (pyToInt dto.total_articles < 0 ∨
        pyToInt dto.total_articles > 150) := by
      rintro (h | h) <;> omega
    have n5 : ¬ ¬ (pyIsDict dto.headers = true) := by simp [hd]
    have n6 : ¬ ¬ (pyIsStr dto.encoding = true) := by simp [he]
    have n7 : ¬ (¬ (pyIsInt dto.timeout = true) ∨ pyToInt dto.timeout ≤ 0 ∨
        pyToInt dto.timeout > 60) := by
      rintro (h | h | h)
      · exact h hti
      · omega
      · omega
    have p8 : ¬ (pyIsBool dto.should_verify_certificate = true) ∨
        ¬ (pyIsBool dto.headless_mode = true) := by
      left
      simp [hv]
    unfold validateConfigContent
    rw [if_neg n1, if_neg n2, if_neg n3, if_neg n4, if_neg n5, if_neg n6,
      if_neg n7, if_pos p8]
  · intro dto e cfg h
    rw [Config.init_error h]
    intro hc
    cases hc

theorem config_single_fault_specific_errors_witness :
    Config.init ⟨.pyList [.pyStr "http://other-domain.com/"], .pyInt 5,
        .pyDict [], .pyStr "utf-8", .pyInt 30, .pyBool true, .pyBool false⟩
      = .error .IncorrectSeedURLError
    ∧ Config.init ⟨.pyList [.pyStr "http://vzm-vesti.ru/"], .pyInt 0,
        .pyDict [], .pyStr "utf-8", .pyInt 30, .pyBool true, .pyBool false⟩
      = .error .IncorrectNumberOfArticlesError
    ∧ Config.init ⟨.pyList [.pyStr "http://vzm-vesti.ru/"], .pyInt 200,
        .pyDict [], .pyStr "utf-8", .pyInt 30, .pyBool true, .pyBool false⟩
      = .error .NumberOfArticlesOutOfRangeError
    ∧ Config.init ⟨.pyList [.pyStr "http://vzm-vesti.ru/"], .pyInt 5,
        .pyDict [], .pyStr "utf-8", .pyInt 0, .pyBool true, .pyBool false⟩
      = .error .IncorrectTimeoutError
    ∧ Config.init ⟨.pyList [.pyStr "http://vzm-vesti.ru/"], .pyInt 5,
        .pyDict [], .pyStr "utf-8", .pyInt 61, .pyBool true, .pyBool false⟩
      = .error .IncorrectTimeoutError
    ∧ Config.init ⟨.pyList [.pyStr "http://vzm-vesti.ru/"], .pyInt 5,
        .pyDict [], .pyStr "utf-8", .pyInt 30, .pyStr "yes", .pyBool false⟩
      = .error .IncorrectVerifyError
    ∧ Config.init ⟨.pyList [.pyStr "http://other-domain.com/"], .pyInt 5,
        .pyDict [], .pyStr "utf-8", .pyInt 30, .pyBool true, .pyBool false⟩
      ≠ .ok ⟨.pyList [], .pyInt 5, .pyDict [], .pyStr "utf-8", .pyInt 30,
        .pyBool true, .pyBool false⟩ :=
  ⟨config_single_fault_specific_errors.1 _ _ "http://other-domain.com/" rfl
      (List.mem_singleton.mpr rfl) (by decide),
   config_single_fault_specific_errors.2.1 _ rfl (by decide) rfl,
   config_single_fault_specific_errors.2.2.1 _ rfl (by decide) rfl,
   config_single_fault_specific_errors.2.2.2.1 _ rfl (by decide) rfl
      (by decide) (by decide) rfl rfl (Or.inl rfl),
   config_single_fault_specific_errors.2.2.2.1 _ rfl (by decide) rfl
      (by decide) (by decide) rfl rfl (Or.inr rfl),
   config_single_fault_specific_errors.2.2.2.2.1 _ rfl (by decide) rfl
      (by decide) (by decide) rfl rfl rfl (by decide) (by decide) rfl,
   config_single_fault_specific_errors.2.2.2.2.2 _
      ConfigError.IncorrectSeedURLError _ rfl⟩

/-- C1: the claim says the author field equals the sentinel string
`"NOT FOUND"` (absent case) or the found element's text (present case).
The code instead initializes the field to a Python list and `+=`s into it,
so the absent case yields the nine-element list of the sentinel's
characters and the present case yields the list of the element's child
nodes — never a string.  This theorem evaluates the embedded code at both
failing inputs. -/
theorem author_field_grows_as_character_list :
    ((fillArticleWithMetaInformation
        ⟨some "T", [⟨["other"], "John Doe", ["John Doe"]⟩]⟩
        (Article.init "u" 1)).map Article.author
      = some [.charItem 'N', .charItem 'O', .charItem 'T', .charItem ' ',
              .charItem 'F', .charItem 'O', .charItem 'U', .charItem 'N',
              .charItem 'D'])
    ∧ ((fillArticleWithMetaInformation
        ⟨some "T", [⟨["bio-name"], "John Doe", ["John Doe"]⟩]⟩
        (Article.init "u" 1)).map Article.author
      = some [.nodeItem "John Doe"]) :=
  ⟨rfl, rfl⟩

/-- C3: on a seed page with extracted links `[A, B, A, C]` and target
count 3, the frontier is exactly `[A, B, C]`: the duplicate `A` is dropped
without counting toward the target and first-occurrence order is kept. -/
theorem frontier_dedup_first_occurrence_order
    (A B C s : String) (hAB : A ≠ B) (hAC : A ≠ C) (hBC : B ≠ C)
    (extract : String → List String) (hx : extract s = [A, B, A, C]) :
    findArticles 3 extract [s] [] = [A, B, C] := by
  simp [findArticles, hx, processLinks, hAB, hAC, hBC,
    Ne.symm hAB, Ne.symm hAC, Ne.symm hBC]

theorem frontier_dedup_first_occurrence_order_witness :
    findArticles 3 (fun _ => ["a", "b", "a", "c"]) ["s"] [] = ["a", "b", "c"] :=
  frontier_dedup_first_occurrence_order "a" "b" "c" "s"
    (by decide) (by decide) (by decide) _ rfl

/-- C4: with target count 2 and links `[A, B, C]` on the first seed, the
frontier is exactly `[A, B]`; the crawl stops before processing `C` and
before fetching any further seed (the result does not depend on the other
seed's links at all); and starting from an empty frontier the frontier
never exceeds the target count. -/
theorem frontier_capped_at_target_count :
    (∀ (A B C s1 s2 : String) (extract : String → List String), A ≠ B →
        extract s1 = [A, B, C] →
        findArticles 2 extract [s1, s2] [] = [A, B])
    ∧ (∀ (num : Nat) (extract : String → List String) (seeds : List String),
        0 < num →
        (findArticles num extract seeds ([] : List String)).length ≤ num) := by
  constructor
  · intro A B C s1 s2 extract hAB hx
    simp [findArticles, hx, processLinks, hAB, Ne.symm hAB]
  · intro num extract seeds h
    exact findArticles_length_le num extract seeds [] (by simpa using h)

theorem frontier_capped_at_target_count_witness :
    findArticles 2 (fun x => if x = "s1" then ["a", "b", "c"] else ["z"])
        ["s1", "s2"] [] = ["a", "b"]
    ∧ (findArticles 3 (fun _ => ["a", "b", "c", "d"]) ["s1", "s2"]
        ([] : List String)).length ≤ 3 :=
  ⟨frontier_capped_at_target_count.1 "a" "b" "c" "s1" "s2" _ (by decide) (by simp),
   frontier_capped_at_target_count.2 3 _ ["s1", "s2"] (by decide)⟩

/-- C5: a document whose `<title>` text is `"Headline Text — Site Name"`
yields the extracted title `"Headline Text"`: split on the em dash, keep
the segment before the first separator, strip surrounding whitespace. -/
theorem title_em_dash_split_trimmed (soup : Doc) (a : Article)
    (h : soup.title = some "Headline Text — Site Name") :
    (fillArticleWithMetaInformation soup a).map Article.title
      = some "Headline Text" := by
  unfold fillArticleWithMetaInformation
  rw [h]
  cases hb : findBioName soup <;> simp <;> decide

theorem title_em_dash_split_trimmed_witness :
    (fillArticleWithMetaInformation ⟨some "Headline Text — Site Name", []⟩
        (Article.init "u" 1)).map Article.title = some "Headline Text" :=
  title_em_dash_split_trimmed ⟨some "Headline Text — Site Name", []⟩
    (Article.init "u" 1) rfl

/-- C6: starting from a fresh record, the body text after
`_fill_article_with_text` is the separator-free concatenation of all
paragraph texts in document order; no paragraphs yield the empty text
(no error), and paragraphs `"Hello "` and `"world."` yield
`"Hello world."`. -/
theorem body_text_concatenates_paragraphs :
    (∀ (soup : Doc) (url : String) (i : Nat),
        (fillArticleWithText soup (Article.init url i)).text
          = String.join (soup.paragraphs.map Para.text))
    ∧ (∀ (url : String) (i : Nat) (t : Option String),
        (fillArticleWithText ⟨t, []⟩ (Article.init url i)).text = "")
    ∧ (fillArticleWithText ⟨none, [⟨[], "Hello ", []⟩, ⟨[], "world.", []⟩]⟩
        (Article.init "u" 1)).text = "Hello world." := by
  refine ⟨fun soup url i => ?_, fun url i t => rfl, rfl⟩
  rw [fillArticleWithText_text]
  rfl

/-- C7: when the listing container is absent from a seed page, seed
crawling raises (the crawl aborts with an error) instead of skipping the
page and moving on. -/
theorem missing_listing_container_raises_error (num : Nat)
    (fetch : String → SeedPage) (seed : String) (seeds : List String)
    (urls : List (Option String)) (h : (fetch seed).listing = none) :
    findArticlesRun num fetch (seed :: seeds) urls = none := by
  simp [findArticlesRun, extractUrl, h]

theorem missing_listing_container_raises_error_witness :
    findArticlesRun 3 (fun _ => ⟨none⟩) ["s1", "s2"] [] = none :=
  missing_listing_container_raises_error 3 (fun _ => ⟨none⟩) "s1" ["s2"] [] rfl

/-- C8: the driver's sink trace over a frontier processes the URLs in
frontier order, gives the i-th URL (1-based) the identifier i, and stores
raw text before metadata for each record. -/
theorem driver_sequential_ids_raw_before_meta (urls : List String) :
    driverRun urls = (List.enumFrom 1 urls).flatMap
      (fun p => [SinkEvent.toRaw p.1 p.2, SinkEvent.toMeta p.1 p.2]) := by
  suffices h : ∀ n, driverLoop urls n = (List.enumFrom n urls).flatMap
      (fun p => [SinkEvent.toRaw p.1 p.2, SinkEvent.toMeta p.1 p.2]) from h 1
  induction urls with
  | nil => intro n; rfl
  | cons u rest ih => intro n; simp [driverLoop, List.enumFrom, ih]

/-- C10: `parse` accumulates into the record's body text: if one parse of
a document starting from a fresh record leaves text `T`, a second parse of
the same document on the same instance leaves text `T ++ T`, so `parse` is
not idempotent on the article record. -/
theorem parse_accumulates_body_text (soup : Doc) (url : String) (i : Nat)
    (a1 : Article) (h : parse soup (Article.init url i) = some a1) :
    ∃ a2, parse soup a1 = some a2 ∧ a2.text = a1.text ++ a1.text := by
  unfold parse at h
  have hJ : a1.text = String.join (soup.paragraphs.map Para.text) := by
    have := fillArticleWithMetaInformation_text h
    rw [fillArticleWithText_text] at this
    simpa [Article.init] using this
  obtain ⟨a2, h2⟩ :=
    fillArticleWithMetaInformation_total h (fillArticleWithText soup a1)
  refine ⟨a2, h2, ?_⟩
  have := fillArticleWithMetaInformation_text h2
  rw [fillArticleWithText_text] at this
  rw [this, ← hJ]

/-- C9: on a well-formed filesystem, preparing the output area twice is
the same as preparing it once, and one preparation leaves exactly one
empty, freshly created directory at the target path: the path maps to a
directory entry and nothing exists strictly below it. -/
theorem prepare_environment_idempotent (fs : FS) (p : FSPath) (hp : p ≠ [])
    (hwf : fs.WF) :
    ((prepareEnvironment p fs).bind (prepareEnvironment p)
        = prepareEnvironment p fs)
    ∧ (∃ fs', prepareEnvironment p fs = some fs'
        ∧ fs'.lookup p = some FSEntry.dirE
        ∧ ∀ q, p <+: q → q ≠ p → fs'.lookup q = none) := by
  have hmain : ∃ es1, (if fs.pathExists p then fs.rmtree p else fs) = FS.mk es1
      ∧ ∀ e ∈ es1, p.isPrefixOf e.1 = false := by
    by_cases hex : fs.pathExists p
    · refine ⟨(fs.rmtree p).entries, by rw [if_pos hex], ?_⟩
      intro e he
      unfold FS.rmtree at he
      have := (List.mem_filter.mp he).2
      simpa using this
    · refine ⟨fs.entries, by rw [if_neg hex], ?_⟩
      intro e he
      by_contra hcon
      have hpre : p <+: e.1 :=
        List.isPrefixOf_iff_prefix.mp (by simpa using hcon)
      have hlen := hpre.length_le
      have hplen : 0 < p.length := List.length_pos.mpr hp
      rcases Nat.lt_or_ge p.length e.1.length with hlt | hge
      · have hex' := hwf e he p.length hlt hplen
        have heq : p = e.1.take p.length := List.prefix_iff_eq_take.mp hpre
        rw [← heq] at hex'
        exact hex hex'
      · have heq : p = e.1 := hpre.eq_of_length (Nat.le_antisymm hlen hge)
        have hk : hasKey fs.entries p = true := by
          unfold hasKey
          rw [List.find?_isSome]
          exact ⟨e, he, by simp [heq]⟩
        exact hex (by unfold FS.pathExists; rw [hk])
  obtain ⟨es1, hes1eq, hclean⟩ := hmain
  have hprep : prepareEnvironment p fs
      = some ⟨((List.range (p.length - 1)).map (fun i => p.take (i + 1))).foldl
          addDir es1 ++ [(p, FSEntry.dirE)]⟩ := by
    simp only [prepareEnvironment]
    rw [hes1eq]
    exact mkdirParents_clean es1 p hp hclean
  set L := ((List.range (p.length - 1)).map (fun i => p.take (i + 1))).foldl
    addDir es1 with hLdef
  have hLclean : ∀ e ∈ L, p.isPrefixOf e.1 = false :=
    foldl_addDir_clean _ es1 hclean (strictInits_clean p)
  have hLpresent : ∀ q ∈ (List.range (p.length - 1)).map (fun i => p.take (i + 1)),
      hasKey L q = true :=
    fun q hq => foldl_addDir_hasKey _ es1 q hq
  have hkL : hasKey L p = false := hasKey_eq_false_of_clean hLclean
  refine ⟨?_, ⟨L ++ [(p, FSEntry.dirE)]⟩, hprep, ?_, ?_⟩
  · rw [hprep]
    show prepareEnvironment p ⟨L ++ [(p, FSEntry.dirE)]⟩ = _
    rw [prepareEnvironment_fixpoint L p hp hLclean hLpresent]
  · exact lookup_append_self L p FSEntry.dirE hkL
  · intro q hpre hne
    unfold FS.lookup
    have hfind : (L ++ [(p, FSEntry.dirE)]).find? (fun e => e.1 == q) = none := by
      rw [List.find?_eq_none]
      intro x hx hbeq
      have hxq : x.1 = q := by simpa using hbeq
      rcases List.mem_append.mp hx with h | h
      · have h1 := hLclean x h
        rw [hxq] at h1
        rw [List.isPrefixOf_iff_prefix.mpr hpre] at h1
        cases h1
      · have hx1 : x = (p, FSEntry.dirE) := List.mem_singleton.mp h
        rw [hx1] at hxq
        exact hne hxq.symm
    rw [hfind]
    rfl

theorem prepare_environment_idempotent_witness :
    ((prepareEnvironment ["out", "data"]
          ⟨[(["x"], FSEntry.fileE), (["out"], FSEntry.dirE),
            (["out", "data"], FSEntry.dirE),
            (["out", "data", "old"], FSEntry.fileE)]⟩).bind
        (prepareEnvironment ["out", "data"])
      = prepareEnvironment ["out", "data"]
          ⟨[(["x"], FSEntry.fileE), (["out"], FSEntry.dirE),
            (["out", "data"], FSEntry.dirE),
            (["out", "data", "old"], FSEntry.fileE)]⟩)
    ∧ (∃ fs', prepareEnvironment ["out", "data"]
          ⟨[(["x"], FSEntry.fileE), (["out"], FSEntry.dirE),
            (["out", "data"], FSEntry.dirE),
            (["out", "data", "old"], FSEntry.fileE)]⟩ = some fs'
        ∧ fs'.lookup ["out", "data"] = some FSEntry.dirE
        ∧ ∀ q, ["out", "data"] <+: q → q ≠ ["out", "data"] →
            fs'.lookup q = none) :=
  prepare_environment_idempotent
    ⟨[(["x"], FSEntry.fileE), (["out"], FSEntry.dirE),
      (["out", "data"], FSEntry.dirE),
      (["out", "data", "old"], FSEntry.fileE)]⟩
    ["out", "data"] (by decide) (by unfold FS.WF; decide)

theorem parse_accumulates_body_text_witness :
    ∃ a2, parse ⟨some "T", [⟨[], "ab", []⟩]⟩
        ⟨"u", 1, "T",
          ["NOT FOUND".data.map AuthorItem.charItem].flatten, "ab"⟩ = some a2
      ∧ a2.text = "ab" ++ "ab" :=
  parse_accumulates_body_text ⟨some "T", [⟨[], "ab", []⟩]⟩ "u" 1 _ rfl

end Scraper
